import Mathlib

/-!
Verification of the root-finding library `my_methods.py`
(bisection method, false-position method, secant method, and the shared
approximate-relative-error helper).

The embedding works over `ℚ`.  Python's `float('inf')` sentinel returned by
`approx_relative_error` on a zero current estimate is modelled by the
two-constructor type `ErrVal`; Python's `ZeroDivisionError` raised by a
vanishing interpolation denominator is modelled by the `Outcome.divFault`
result; the two `ValueError`s of the source are `Outcome.invalidBracket`
(bad bracket at setup) and `Outcome.maxIterations` (iteration budget
exhausted).  A successful return is tagged by which path produced it:
`Outcome.exactRoot` for the exact-root short-circuit, `Outcome.tolerance`
for the relative-error convergence check.  `print_out` only writes to the
console and never affects control flow, so it is not modelled.
-/

/-- Value returned by the error estimator: either a finite rational error or
the positive-infinity sentinel (`float('inf')` in the source). -/
inductive ErrVal where
  | inf : ErrVal
  | val : ℚ → ErrVal
deriving DecidableEq

/-- The comparison `current_error < max_error` of the source, where
`current_error` may be the infinity sentinel: infinity is below no finite
bound. -/
def ErrVal.below : ErrVal → ℚ → Bool
  | .inf, _ => false
  | .val e, m => decide (e < m)

/-- `approx_relative_error` from `my_methods.py`: guard against a zero
current estimate, otherwise `abs((current-previous)/current)`. -/
def approx_relative_error (previous_estimate current_estimate : ℚ) : ErrVal :=
  if current_estimate = 0 then ErrVal.inf
  else ErrVal.val |(current_estimate - previous_estimate) / current_estimate|

/-- The ways a solver call can terminate. -/
inductive Outcome where
  | exactRoot : ℚ → Outcome
  | tolerance : ℚ → Outcome
  | maxIterations : Outcome
  | invalidBracket : Outcome
  | divFault : Outcome
deriving DecidableEq

/-- One iteration of the `for` body of `bisection_method` (source lines
97-114), acting on the state `(x_a, x_b, x_p)` where `x_p` is the previous
midpoint (the initial `x_a` on iteration 0): compute the midpoint, return on
an exact root, otherwise update the bracket by the boolean sign comparison,
then return on the relative-error check or continue with the new state. -/
def bisect_step (solve_func : ℚ → ℚ) (max_error : ℚ) (x_a x_b x_p : ℚ) :
    Outcome ⊕ ((ℚ × ℚ) × ℚ) :=
  let x_c := (x_a + x_b) / 2
  if solve_func x_c = 0 then
    Sum.inl (Outcome.exactRoot x_c)
  else
    let next :=
      if decide (solve_func x_a > 0) = decide (solve_func x_c > 0) then
        (x_c, x_b)
      else
        (x_a, x_c)
    if (approx_relative_error x_p x_c).below max_error then
      Sum.inl (Outcome.tolerance x_c)
    else
      Sum.inr (next, x_c)

/-- The iteration loop of `bisection_method`: run `bisect_step` up to the
remaining iteration budget, failing with `maxIterations` when the budget is
exhausted. -/
def bisect_loop (solve_func : ℚ → ℚ) (max_error : ℚ) :
    ℕ → ℚ → ℚ → ℚ → Outcome
  | 0, _, _, _ => Outcome.maxIterations
  | n + 1, x_a, x_b, x_p =>
    match bisect_step solve_func max_error x_a x_b x_p with
    | Sum.inl out => out
    | Sum.inr ((a, b), p) => bisect_loop solve_func max_error n a b p

/-- `bisection_method` from `my_methods.py`: normalize the bounds, check the
bracket once, then iterate.  The loop starts with `x_p = x_a` because the
source sets `x_p = x_a` on iteration 0. -/
def bisection_method (input_func : ℚ → ℚ) (x_lower x_upper y max_error : ℚ)
    (max_iterations : ℕ) : Outcome :=
  let solve_func := fun x => input_func x - y
  let x_a := min x_lower x_upper
  let x_b := max x_lower x_upper
  if solve_func x_a * solve_func x_b > 0 then
    Outcome.invalidBracket
  else
    bisect_loop solve_func max_error max_iterations x_a x_b x_a

/-- One iteration of the `for` body of `false_position_method` (source lines
175-192).  The candidate `x_c` is the secant-line intercept; evaluating it
divides by `solve_func x_a - solve_func x_b`, which in Python raises
`ZeroDivisionError` when zero (before the exact-root check), modelled as
`divFault`.  Everything after the candidate computation is as in
`bisect_step`. -/
def falsepos_step (solve_func : ℚ → ℚ) (max_error : ℚ) (x_a x_b x_p : ℚ) :
    Outcome ⊕ ((ℚ × ℚ) × ℚ) :=
  if solve_func x_a - solve_func x_b = 0 then
    Sum.inl Outcome.divFault
  else
    let x_c := x_b - solve_func x_b * (x_a - x_b) / (solve_func x_a - solve_func x_b)
    if solve_func x_c = 0 then
      Sum.inl (Outcome.exactRoot x_c)
    else
      let next :=
        if decide (solve_func x_a > 0) = decide (solve_func x_c > 0) then
          (x_c, x_b)
        else
          (x_a, x_c)
      if (approx_relative_error x_p x_c).below max_error then
        Sum.inl (Outcome.tolerance x_c)
      else
        Sum.inr (next, x_c)

/-- The iteration loop of `false_position_method`. -/
def falsepos_loop (solve_func : ℚ → ℚ) (max_error : ℚ) :
    ℕ → ℚ → ℚ → ℚ → Outcome
  | 0, _, _, _ => Outcome.maxIterations
  | n + 1, x_a, x_b, x_p =>
    match falsepos_step solve_func max_error x_a x_b x_p with
    | Sum.inl out => out
    | Sum.inr ((a, b), p) => falsepos_loop solve_func max_error n a b p

/-- `false_position_method` from `my_methods.py`: setup identical to
`bisection_method` (normalization, one-time bracket check), then the
false-position iteration loop. -/
def false_position_method (input_func : ℚ → ℚ) (x_lower x_upper y max_error : ℚ)
    (max_iterations : ℕ) : Outcome :=
  let solve_func := fun x => input_func x - y
  let x_a := min x_lower x_upper
  let x_b := max x_lower x_upper
  if solve_func x_a * solve_func x_b > 0 then
    Outcome.invalidBracket
  else
    falsepos_loop solve_func max_error max_iterations x_a x_b x_a

/-- One iteration of the `for` body of `secant_method` (source lines
245-255): exact-root check on the older point `x_0` first, then the
relative-error check between `x_0` and `x_1`, and only then the new estimate
`x_2` (whose denominator may vanish, raising `ZeroDivisionError`, modelled as
`divFault`), after which the window shifts to `(x_1, x_2)`. -/
def secant_step (solve_func : ℚ → ℚ) (max_error : ℚ) (x_0 x_1 : ℚ) :
    Outcome ⊕ (ℚ × ℚ) :=
  if solve_func x_0 = 0 then
    Sum.inl (Outcome.exactRoot x_0)
  else if (approx_relative_error x_0 x_1).below max_error then
    Sum.inl (Outcome.tolerance x_1)
  else if solve_func x_0 - solve_func x_1 = 0 then
    Sum.inl Outcome.divFault
  else
    Sum.inr (x_1, x_1 - solve_func x_1 * (x_0 - x_1) / (solve_func x_0 - solve_func x_1))

/-- The iteration loop of `secant_method`. -/
def secant_loop (solve_func : ℚ → ℚ) (max_error : ℚ) :
    ℕ → ℚ → ℚ → Outcome
  | 0, _, _ => Outcome.maxIterations
  | n + 1, x_0, x_1 =>
    match secant_step solve_func max_error x_0 x_1 with
    | Sum.inl out => out
    | Sum.inr (a, b) => secant_loop solve_func max_error n a b

/-- `secant_method` from `my_methods.py`: no setup beyond forming
`solve_func`; no bracket requirement. -/
def secant_method (input_func : ℚ → ℚ) (x_0 x_1 y max_error : ℚ)
    (max_iterations : ℕ) : Outcome :=
  secant_loop (fun x => input_func x - y) max_error max_iterations x_0 x_1

/-- A candidate generator for the shared bracket-method control structure:
given the effective objective and the current bracket, produce the next
candidate, or `none` when evaluating it faults. -/
def midpoint_cand : (ℚ → ℚ) → ℚ → ℚ → Option ℚ :=
  fun _ x_a x_b => some ((x_a + x_b) / 2)

/-- The false-position candidate: the x-intercept of the secant line through
the bracket endpoints; `none` (division fault) when the denominator
vanishes. -/
def falsepos_cand : (ℚ → ℚ) → ℚ → ℚ → Option ℚ :=
  fun solve_func x_a x_b =>
    if solve_func x_a - solve_func x_b = 0 then none
    else some (x_b - solve_func x_b * (x_a - x_b) / (solve_func x_a - solve_func x_b))

/-- The control structure shared by the bisection and false-position
iteration bodies, parametrized by the candidate generator; everything except
the candidate computation is common. -/
def bracket_step (cand : (ℚ → ℚ) → ℚ → ℚ → Option ℚ)
    (solve_func : ℚ → ℚ) (max_error : ℚ) (x_a x_b x_p : ℚ) :
    Outcome ⊕ ((ℚ × ℚ) × ℚ) :=
  match cand solve_func x_a x_b with
  | none => Sum.inl Outcome.divFault
  | some x_c =>
    if solve_func x_c = 0 then
      Sum.inl (Outcome.exactRoot x_c)
    else
      let next :=
        if decide (solve_func x_a > 0) = decide (solve_func x_c > 0) then
          (x_c, x_b)
        else
          (x_a, x_c)
      if (approx_relative_error x_p x_c).below max_error then
        Sum.inl (Outcome.tolerance x_c)
      else
        Sum.inr (next, x_c)

/-- The iteration loop shared by the two bracket methods. -/
def bracket_loop (cand : (ℚ → ℚ) → ℚ → ℚ → Option ℚ)
    (solve_func : ℚ → ℚ) (max_error : ℚ) :
    ℕ → ℚ → ℚ → ℚ → Outcome
  | 0, _, _, _ => Outcome.maxIterations
  | n + 1, x_a, x_b, x_p =>
    match bracket_step cand solve_func max_error x_a x_b x_p with
    | Sum.inl out => out
    | Sum.inr ((a, b), p) => bracket_loop cand solve_func max_error n a b p

/-- An objective that vanishes at `0` and is `-1` elsewhere; it exercises
the zero-endpoint corner of the bracket validation. -/
def zeroEdgeObjective : ℚ → ℚ := fun x => if x = 0 then 0 else -1

/-- The full bracket-method contract shared by `bisection_method` and
`false_position_method`: normalization, one-time bracket check, iteration
loop; only the candidate generator varies. -/
def bracket_method (cand : (ℚ → ℚ) → ℚ → ℚ → Option ℚ)
    (input_func : ℚ → ℚ) (x_lower x_upper y max_error : ℚ)
    (max_iterations : ℕ) : Outcome :=
  let solve_func := fun x => input_func x - y
  let x_a := min x_lower x_upper
  let x_b := max x_lower x_upper
  if solve_func x_a * solve_func x_b > 0 then
    Outcome.invalidBracket
  else
    bracket_loop cand solve_func max_error max_iterations x_a x_b x_a


/-! ### Helper lemmas about the iteration steps -/

/-- A zero current estimate makes the error estimator return the infinity
sentinel, which is below no bound. -/
theorem approx_relative_error_zero_below (p m : ℚ) :
    (approx_relative_error p 0).below m = false := by
  simp [approx_relative_error, ErrVal.below]

/-- The error between two equal nonzero estimates is zero. -/
theorem approx_relative_error_self (x : ℚ) (hx : x ≠ 0) :
    approx_relative_error x x = ErrVal.val 0 := by
  simp [approx_relative_error, hx]

/-- Shapes a bisection step can take: it never signals a bad bracket, a
division fault, exhaustion, or tolerance-convergence at the estimate `0`. -/
theorem bisect_step_shapes (s : ℚ → ℚ) (m a b p : ℚ) :
    bisect_step s m a b p ≠ Sum.inl Outcome.invalidBracket ∧
    bisect_step s m a b p ≠ Sum.inl Outcome.divFault ∧
    bisect_step s m a b p ≠ Sum.inl Outcome.maxIterations ∧
    bisect_step s m a b p ≠ Sum.inl (Outcome.tolerance 0) := by
  simp only [bisect_step]
  split
  · simp
  · split
    · rename_i hc hb
      refine ⟨by simp, by simp, by simp, ?_⟩
      intro h
      simp only [Sum.inl.injEq, Outcome.tolerance.injEq] at h
      rw [h, approx_relative_error_zero_below] at hb
      exact Bool.false_ne_true hb
    · simp

/-- Shapes a false-position step can take: it never signals a bad bracket,
exhaustion, or tolerance-convergence at the estimate `0`. -/
theorem falsepos_step_shapes (s : ℚ → ℚ) (m a b p : ℚ) :
    falsepos_step s m a b p ≠ Sum.inl Outcome.invalidBracket ∧
    falsepos_step s m a b p ≠ Sum.inl Outcome.maxIterations ∧
    falsepos_step s m a b p ≠ Sum.inl (Outcome.tolerance 0) := by
  simp only [falsepos_step]
  split
  · simp
  · split
    · simp
    · split
      · rename_i hd hc hb
        refine ⟨by simp, by simp, ?_⟩
        intro h
        simp only [Sum.inl.injEq, Outcome.tolerance.injEq] at h
        rw [h, approx_relative_error_zero_below] at hb
        exact Bool.false_ne_true hb
      · simp

/-- Shapes a secant step can take: it never signals a bad bracket,
exhaustion, or tolerance-convergence at the estimate `0`. -/
theorem secant_step_shapes (s : ℚ → ℚ) (m x0 x1 : ℚ) :
    secant_step s m x0 x1 ≠ Sum.inl Outcome.invalidBracket ∧
    secant_step s m x0 x1 ≠ Sum.inl Outcome.maxIterations ∧
    secant_step s m x0 x1 ≠ Sum.inl (Outcome.tolerance 0) := by
  simp only [secant_step]
  split
  · simp
  · split
    · rename_i h0 hb
      refine ⟨by simp, by simp, ?_⟩
      intro h
      simp only [Sum.inl.injEq, Outcome.tolerance.injEq] at h
      rw [h, approx_relative_error_zero_below] at hb
      exact Bool.false_ne_true hb
    · split
      · simp
      · simp

/-- The bisection loop can only end in `exactRoot`, `tolerance` (at a
nonzero estimate) or `maxIterations`. -/
theorem bisect_loop_shapes (s : ℚ → ℚ) (m : ℚ) :
    ∀ (k : ℕ) (a b p : ℚ),
      bisect_loop s m k a b p ≠ Outcome.invalidBracket ∧
      bisect_loop s m k a b p ≠ Outcome.divFault ∧
      bisect_loop s m k a b p ≠ Outcome.tolerance 0 := by
  intro k
  induction k with
  | zero => intro a b p; simp [bisect_loop]
  | succ n ih =>
    intro a b p
    rw [bisect_loop]
    rcases hstep : bisect_step s m a b p with out | st
    · obtain ⟨h1, h2, _, h4⟩ := bisect_step_shapes s m a b p
      rw [hstep] at h1 h2 h4
      exact ⟨fun h => h1 (congrArg Sum.inl h), fun h => h2 (congrArg Sum.inl h),
        fun h => h4 (congrArg Sum.inl h)⟩
    · obtain ⟨⟨a', b'⟩, p'⟩ := st
      exact ih a' b' p'

/-- The false-position loop can only end in `exactRoot`, `tolerance` (at a
nonzero estimate), `maxIterations` or `divFault`. -/
theorem falsepos_loop_shapes (s : ℚ → ℚ) (m : ℚ) :
    ∀ (k : ℕ) (a b p : ℚ),
      falsepos_loop s m k a b p ≠ Outcome.invalidBracket ∧
      falsepos_loop s m k a b p ≠ Outcome.tolerance 0 := by
  intro k
  induction k with
  | zero => intro a b p; simp [falsepos_loop]
  | succ n ih =>
    intro a b p
    rw [falsepos_loop]
    rcases hstep : falsepos_step s m a b p with out | st
    · obtain ⟨h1, _, h3⟩ := falsepos_step_shapes s m a b p
      rw [hstep] at h1 h3
      exact ⟨fun h => h1 (congrArg Sum.inl h), fun h => h3 (congrArg Sum.inl h)⟩
    · obtain ⟨⟨a', b'⟩, p'⟩ := st
      exact ih a' b' p'

/-- The secant loop can only end in `exactRoot`, `tolerance` (at a nonzero
estimate), `maxIterations` or `divFault`. -/
theorem secant_loop_shapes (s : ℚ → ℚ) (m : ℚ) :
    ∀ (k : ℕ) (x0 x1 : ℚ),
      secant_loop s m k x0 x1 ≠ Outcome.invalidBracket ∧
      secant_loop s m k x0 x1 ≠ Outcome.tolerance 0 := by
  intro k
  induction k with
  | zero => intro x0 x1; simp [secant_loop]
  | succ n ih =>
    intro x0 x1
    rw [secant_loop]
    rcases hstep : secant_step s m x0 x1 with out | st
    · obtain ⟨h1, _, h3⟩ := secant_step_shapes s m x0 x1
      rw [hstep] at h1 h3
      exact ⟨fun h => h1 (congrArg Sum.inl h), fun h => h3 (congrArg Sum.inl h)⟩
    · obtain ⟨a', b'⟩ := st
      exact ih a' b'

/-- Sign bookkeeping of the shared bracket update: if the endpoint values
have strictly opposite signs and the candidate value is nonzero, replacing
the endpoint selected by the boolean comparison `solve(x_a) > 0` versus
`solve(x_c) > 0` keeps strictly opposite signs. -/
theorem sign_update_preserves (u v w : ℚ) (huv : u * v < 0) (hw : w ≠ 0) :
    (decide (u > 0) = decide (w > 0) → w * v < 0) ∧
    (decide (u > 0) ≠ decide (w > 0) → u * w < 0) := by
  have hu : u ≠ 0 := fun h => by simp [h] at huv
  constructor
  · intro hsame
    rw [decide_eq_decide] at hsame
    rcases lt_or_gt_of_ne hu with hneg | hpos
    · have hwneg : w < 0 := by
        rcases lt_or_gt_of_ne hw with h | h
        · exact h
        · exact absurd (hsame.mpr h) (not_lt.mpr hneg.le)
      have hvpos : 0 < v := by nlinarith
      exact mul_neg_of_neg_of_pos hwneg hvpos
    · have hwpos : 0 < w := hsame.mp hpos
      have hvneg : v < 0 := by nlinarith
      exact mul_neg_of_pos_of_neg hwpos hvneg
  · intro hdiff
    rw [ne_eq, decide_eq_decide] at hdiff
    rcases lt_or_gt_of_ne hu with hneg | hpos
    · have hwpos : 0 < w := by
        rcases lt_or_gt_of_ne hw with h | h
        · exact absurd (iff_of_false (not_lt.mpr hneg.le) (not_lt.mpr h.le)) hdiff
        · exact h
      exact mul_neg_of_neg_of_pos hneg hwpos
    · have hwneg : w < 0 := by
        rcases lt_or_gt_of_ne hw with h | h
        · exact h
        · exact absurd (iff_of_true hpos h) hdiff
      exact mul_neg_of_pos_of_neg hpos hwneg

/-- When the bisection step continues, it continues on a bracket whose
endpoint values still have strictly opposite signs, provided they did
before. -/
theorem bisect_step_preserves_sign (s : ℚ → ℚ) (m a b p a' b' p' : ℚ)
    (hab : s a * s b < 0)
    (h : bisect_step s m a b p = Sum.inr ((a', b'), p')) :
    s a' * s b' < 0 := by
  simp only [bisect_step] at h
  split at h
  · simp at h
  · rename_i hc
    split at h
    · simp at h
    · rw [Sum.inr.injEq, Prod.mk.injEq] at h
      obtain ⟨hpair, hp⟩ := h
      split at hpair
      · rename_i hsame
        rw [Prod.mk.injEq] at hpair
        obtain ⟨ha', hb'⟩ := hpair
        subst ha'; subst hb'
        exact (sign_update_preserves (s a) (s b) (s ((a + b) / 2)) hab hc).1 hsame
      · rename_i hdiff
        rw [Prod.mk.injEq] at hpair
        obtain ⟨ha', hb'⟩ := hpair
        subst ha'; subst hb'
        exact (sign_update_preserves (s a) (s b) (s ((a + b) / 2)) hab hc).2 hdiff

/-- When the false-position step continues, it continues on a bracket whose
endpoint values still have strictly opposite signs, provided they did
before. -/
theorem falsepos_step_preserves_sign (s : ℚ → ℚ) (m a b p a' b' p' : ℚ)
    (hab : s a * s b < 0)
    (h : falsepos_step s m a b p = Sum.inr ((a', b'), p')) :
    s a' * s b' < 0 := by
  simp only [falsepos_step] at h
  split at h
  · simp at h
  · rename_i hd
    split at h
    · simp at h
    · rename_i hc
      split at h
      · simp at h
      · rw [Sum.inr.injEq, Prod.mk.injEq] at h
        obtain ⟨hpair, hp⟩ := h
        split at hpair
        · rename_i hsame
          rw [Prod.mk.injEq] at hpair
          obtain ⟨ha', hb'⟩ := hpair
          subst ha'; subst hb'
          exact (sign_update_preserves (s a) (s b)
            (s (b - s b * (a - b) / (s a - s b))) hab hc).1 hsame
        · rename_i hdiff
          rw [Prod.mk.injEq] at hpair
          obtain ⟨ha', hb'⟩ := hpair
          subst ha'; subst hb'
          exact (sign_update_preserves (s a) (s b)
            (s (b - s b * (a - b) / (s a - s b))) hab hc).2 hdiff

/-! ### The two bracket methods as instances of the shared control
structure -/

/-- The bisection step is the shared bracket step with the midpoint
candidate. -/
theorem bisect_step_eq_bracket_step (s : ℚ → ℚ) (m a b p : ℚ) :
    bisect_step s m a b p = bracket_step midpoint_cand s m a b p := rfl

/-- The false-position step is the shared bracket step with the secant-line
candidate. -/
theorem falsepos_step_eq_bracket_step (s : ℚ → ℚ) (m a b p : ℚ) :
    falsepos_step s m a b p = bracket_step falsepos_cand s m a b p := by
  by_cases hd : s a - s b = 0
  · simp [falsepos_step, bracket_step, falsepos_cand, hd]
  · simp [falsepos_step, bracket_step, falsepos_cand, hd]

/-- The bisection loop is the shared bracket loop with the midpoint
candidate. -/
theorem bisect_loop_eq_bracket_loop (s : ℚ → ℚ) (m : ℚ) :
    ∀ (k : ℕ) (a b p : ℚ),
      bisect_loop s m k a b p = bracket_loop midpoint_cand s m k a b p := by
  intro k
  induction k with
  | zero => intro a b p; rfl
  | succ n ih =>
    intro a b p
    rw [bisect_loop, bracket_loop, ← bisect_step_eq_bracket_step]
    cases hstep : bisect_step s m a b p with
    | inl out => rfl
    | inr st =>
      obtain ⟨⟨a', b'⟩, p'⟩ := st
      exact ih a' b' p'

/-- The false-position loop is the shared bracket loop with the secant-line
candidate. -/
theorem falsepos_loop_eq_bracket_loop (s : ℚ → ℚ) (m : ℚ) :
    ∀ (k : ℕ) (a b p : ℚ),
      falsepos_loop s m k a b p = bracket_loop falsepos_cand s m k a b p := by
  intro k
  induction k with
  | zero => intro a b p; rfl
  | succ n ih =>
    intro a b p
    rw [falsepos_loop, bracket_loop, ← falsepos_step_eq_bracket_step]
    cases hstep : falsepos_step s m a b p with
    | inl out => rfl
    | inr st =>
      obtain ⟨⟨a', b'⟩, p'⟩ := st
      exact ih a' b' p'

/-- `bisection_method` is the shared bracket method with the midpoint
candidate. -/
theorem bisection_method_eq_bracket_method (f : ℚ → ℚ) (xl xu y m : ℚ) (n : ℕ) :
    bisection_method f xl xu y m n = bracket_method midpoint_cand f xl xu y m n := by
  simp only [bisection_method, bracket_method]
  by_cases h : (f (min xl xu) - y) * (f (max xl xu) - y) > 0
  · rw [if_pos h, if_pos h]
  · rw [if_neg h, if_neg h]
    exact bisect_loop_eq_bracket_loop _ _ n _ _ _

/-- `false_position_method` is the shared bracket method with the
secant-line candidate. -/
theorem false_position_method_eq_bracket_method (f : ℚ → ℚ) (xl xu y m : ℚ) (n : ℕ) :
    false_position_method f xl xu y m n = bracket_method falsepos_cand f xl xu y m n := by
  simp only [false_position_method, bracket_method]
  by_cases h : (f (min xl xu) - y) * (f (max xl xu) - y) > 0
  · rw [if_pos h, if_pos h]
  · rw [if_neg h, if_neg h]
    exact falsepos_loop_eq_bracket_loop _ _ n _ _ _

/-! ### Claim theorems -/

/-- Claim C6: for every pair of rational inputs, `approx_relative_error`
returns `abs((current - previous) / current)` when the current estimate is
nonzero and the positive-infinity sentinel when it is zero; it is total with
no failure modes. -/
theorem approx_relative_error_spec (p c : ℚ) :
    (c ≠ 0 → approx_relative_error p c = ErrVal.val |(c - p) / c|) ∧
    (c = 0 → approx_relative_error p c = ErrVal.inf) := by
  constructor
  · intro h
    simp [approx_relative_error, h]
  · intro h
    simp [approx_relative_error, h]

/-- Claim C2: both bracket methods normalize the bounds with `min`/`max`,
solve `objective x - y`, and fail with `InvalidBracketError` exactly when
`solve x_a * solve x_b > 0`; the check happens only at setup — no loop
iteration can produce that failure. -/
theorem bracket_validation_spec (f : ℚ → ℚ) (xl xu y m : ℚ) (n : ℕ) :
    (bisection_method f xl xu y m n = Outcome.invalidBracket ↔
      (f (min xl xu) - y) * (f (max xl xu) - y) > 0) ∧
    (false_position_method f xl xu y m n = Outcome.invalidBracket ↔
      (f (min xl xu) - y) * (f (max xl xu) - y) > 0) ∧
    (∀ (k : ℕ) (a b p : ℚ),
      bisect_loop (fun x => f x - y) m k a b p ≠ Outcome.invalidBracket) ∧
    (∀ (k : ℕ) (a b p : ℚ),
      falsepos_loop (fun x => f x - y) m k a b p ≠ Outcome.invalidBracket) := by
  refine ⟨⟨?_, ?_⟩, ⟨?_, ?_⟩, fun k a b p => (bisect_loop_shapes _ _ k a b p).1,
    fun k a b p => (falsepos_loop_shapes _ _ k a b p).1⟩
  · intro h
    by_contra hc
    simp only [bisection_method] at h
    rw [if_neg hc] at h
    exact (bisect_loop_shapes _ _ n _ _ _).1 h
  · intro h
    simp only [bisection_method]
    rw [if_pos h]
  · intro h
    by_contra hc
    simp only [false_position_method] at h
    rw [if_neg hc] at h
    exact (falsepos_loop_shapes _ _ n _ _ _).1 h
  · intro h
    simp only [false_position_method]
    rw [if_pos h]

/-- Claim C4: `false_position_method` and `bisection_method` are the same
bracket-method control structure (same validation, same exact-root
short-circuit, same sign-based replacement, same error check, same failure
kinds), instantiated with different candidate formulas: the midpoint for
bisection and the secant-line intercept
`x_b - solve x_b * (x_a - x_b) / (solve x_a - solve x_b)` for false
position. -/
theorem false_position_refines_bisection (f : ℚ → ℚ) (xl xu y m : ℚ) (n : ℕ) :
    bisection_method f xl xu y m n = bracket_method midpoint_cand f xl xu y m n ∧
    false_position_method f xl xu y m n = bracket_method falsepos_cand f xl xu y m n ∧
    (∀ (s : ℚ → ℚ) (a b : ℚ), midpoint_cand s a b = some ((a + b) / 2)) ∧
    (∀ (s : ℚ → ℚ) (a b : ℚ), falsepos_cand s a b =
      if s a - s b = 0 then none else some (b - s b * (a - b) / (s a - s b))) :=
  ⟨bisection_method_eq_bracket_method f xl xu y m n,
   false_position_method_eq_bracket_method f xl xu y m n,
   fun _ _ _ => rfl, fun _ _ _ => rfl⟩

/-- Claim C10: no solver returns the estimate `0` through the
tolerance-satisfied path, because a zero current estimate makes the error
estimator return infinity, which is below no bound; `0` can only come back
through an exact-root short-circuit. -/
theorem zero_only_by_exact_root (f : ℚ → ℚ) (xl xu y m : ℚ) (n : ℕ) :
    bisection_method f xl xu y m n ≠ Outcome.tolerance 0 ∧
    false_position_method f xl xu y m n ≠ Outcome.tolerance 0 ∧
    secant_method f xl xu y m n ≠ Outcome.tolerance 0 := by
  refine ⟨?_, ?_, (secant_loop_shapes _ _ n _ _).2⟩
  · simp only [bisection_method]
    split
    · simp
    · exact (bisect_loop_shapes _ _ n _ _ _).2.2
  · simp only [false_position_method]
    split
    · simp
    · exact (falsepos_loop_shapes _ _ n _ _ _).2

/-- Claim C1: each bisection iteration candidates the midpoint
`x_c = (x_a + x_b) / 2`, returns it at once on an exact root, otherwise
replaces `x_a` by `x_c` when `solve x_a > 0` and `solve x_c > 0` agree
(zero counting as non-positive) and `x_b` otherwise, and returns `x_c` when
the relative error from the previous midpoint is strictly below
`max_error`; the error on iteration 0 is taken from the initial normalized
`x_a`, which is how `bisection_method` seeds the loop. -/
theorem bisection_iteration_spec :
    (∀ (s : ℚ → ℚ) (m : ℚ) (n : ℕ) (a b p : ℚ),
      bisect_loop s m (n + 1) a b p =
        if s ((a + b) / 2) = 0 then Outcome.exactRoot ((a + b) / 2)
        else if (approx_relative_error p ((a + b) / 2)).below m then
          Outcome.tolerance ((a + b) / 2)
        else if (s a > 0 ↔ s ((a + b) / 2) > 0) then
          bisect_loop s m n ((a + b) / 2) b ((a + b) / 2)
        else
          bisect_loop s m n a ((a + b) / 2) ((a + b) / 2)) ∧
    (∀ (f : ℚ → ℚ) (xl xu y m : ℚ) (n : ℕ),
      bisection_method f xl xu y m n =
        if (f (min xl xu) - y) * (f (max xl xu) - y) > 0 then Outcome.invalidBracket
        else bisect_loop (fun x => f x - y) m n (min xl xu) (max xl xu) (min xl xu)) := by
  constructor
  · intro s m n a b p
    rw [bisect_loop]
    by_cases h1 : s ((a + b) / 2) = 0
    · have hs : bisect_step s m a b p = Sum.inl (Outcome.exactRoot ((a + b) / 2)) := by
        simp [bisect_step, h1]
      rw [hs, if_pos h1]
    · by_cases h2 : ((approx_relative_error p ((a + b) / 2)).below m) = true
      · have hs : bisect_step s m a b p = Sum.inl (Outcome.tolerance ((a + b) / 2)) := by
          simp [bisect_step, h1, h2]
        rw [hs, if_neg h1, if_pos h2]
      · by_cases h3 : (s a > 0 ↔ s ((a + b) / 2) > 0)
        · have hs : bisect_step s m a b p =
              Sum.inr (((a + b) / 2, b), (a + b) / 2) := by
            simp [bisect_step, h1, h2, decide_eq_decide, h3]
          rw [hs, if_neg h1, if_neg h2, if_pos h3]
        · have hs : bisect_step s m a b p = Sum.inr ((a, (a + b) / 2), (a + b) / 2) := by
            simp [bisect_step, h1, h2, decide_eq_decide, h3]
          rw [hs, if_neg h1, if_neg h2, if_neg h3]
  · intro f xl xu y m n
    rfl

/-- Claim C5: each secant iteration first short-circuits on an exact root at
the older point `x_0`, then returns `x_1` when the relative error between
`x_0` and `x_1` is below the tolerance, and only after both checks computes
`x_2 = x_1 - solve x_1 * (x_0 - x_1) / (solve x_0 - solve x_1)` (faulting on
a zero denominator) and shifts the window to `(x_1, x_2)`. -/
theorem secant_iteration_spec :
    (∀ (s : ℚ → ℚ) (m : ℚ) (n : ℕ) (x0 x1 : ℚ),
      secant_loop s m (n + 1) x0 x1 =
        if s x0 = 0 then Outcome.exactRoot x0
        else if (approx_relative_error x0 x1).below m then Outcome.tolerance x1
        else if s x0 - s x1 = 0 then Outcome.divFault
        else secant_loop s m n x1 (x1 - s x1 * (x0 - x1) / (s x0 - s x1))) ∧
    (∀ (f : ℚ → ℚ) (x0 x1 y m : ℚ) (n : ℕ),
      secant_method f x0 x1 y m n = secant_loop (fun x => f x - y) m n x0 x1) := by
  constructor
  · intro s m n x0 x1
    rw [secant_loop]
    by_cases h1 : s x0 = 0
    · have hs : secant_step s m x0 x1 = Sum.inl (Outcome.exactRoot x0) := by
        simp [secant_step, h1]
      rw [hs, if_pos h1]
    · by_cases h2 : ((approx_relative_error x0 x1).below m) = true
      · have hs : secant_step s m x0 x1 = Sum.inl (Outcome.tolerance x1) := by
          simp [secant_step, h1, h2]
        rw [hs, if_neg h1, if_pos h2]
      · by_cases h3 : s x0 - s x1 = 0
        · have hs : secant_step s m x0 x1 = Sum.inl Outcome.divFault := by
            simp [secant_step, h1, h2, h3]
          rw [hs, if_neg h1, if_neg h2, if_pos h3]
        · have hs : secant_step s m x0 x1 =
              Sum.inr (x1, x1 - s x1 * (x0 - x1) / (s x0 - s x1)) := by
            simp [secant_step, h1, h2, h3]
          rw [hs, if_neg h1, if_neg h2, if_neg h3]
  · intro f x0 x1 y m n
    rfl

/-- Counterexample to claim C3 as stated: on a constant objective with two
distinct guesses, `secant_method` terminates with a division fault — neither
an exact-root return, nor a tolerance return, nor `MaxIterationsExceededError`. -/
theorem secant_three_outcomes_cex :
    ¬ ((∃ x, secant_method (fun _ => (1 : ℚ)) 0 1 0 (1 / 100000) 100 = Outcome.exactRoot x) ∨
       (∃ x, secant_method (fun _ => (1 : ℚ)) 0 1 0 (1 / 100000) 100 = Outcome.tolerance x) ∨
       secant_method (fun _ => (1 : ℚ)) 0 1 0 (1 / 100000) 100 = Outcome.maxIterations) := by
  have hr : secant_method (fun _ => (1 : ℚ)) 0 1 0 (1 / 100000) 100 = Outcome.divFault := by
    show secant_loop _ _ (99 + 1) _ _ = _
    rw [secant_loop]
    norm_num [secant_step, approx_relative_error, ErrVal.below]
  rw [hr]
  rintro (⟨x, hx⟩ | ⟨x, hx⟩ | hx) <;> exact Outcome.noConfusion hx

/-- Claim C3 (amended): every call terminates in an exact-root return, a
tolerance return, `MaxIterationsExceededError`, `InvalidBracketError` at
setup (bracket methods only), or a division fault (false position and
secant only); `bisection_method` never division-faults and `secant_method`
never reports an invalid bracket, and no partial result accompanies a
failure. -/
theorem solver_termination_modes (f : ℚ → ℚ) (xl xu y m : ℚ) (n : ℕ) :
    bisection_method f xl xu y m n ≠ Outcome.divFault ∧
    secant_method f xl xu y m n ≠ Outcome.invalidBracket ∧
    ((∃ x, bisection_method f xl xu y m n = Outcome.exactRoot x) ∨
     (∃ x, bisection_method f xl xu y m n = Outcome.tolerance x) ∨
     bisection_method f xl xu y m n = Outcome.maxIterations ∨
     bisection_method f xl xu y m n = Outcome.invalidBracket) ∧
    ((∃ x, false_position_method f xl xu y m n = Outcome.exactRoot x) ∨
     (∃ x, false_position_method f xl xu y m n = Outcome.tolerance x) ∨
     false_position_method f xl xu y m n = Outcome.maxIterations ∨
     false_position_method f xl xu y m n = Outcome.invalidBracket ∨
     false_position_method f xl xu y m n = Outcome.divFault) ∧
    ((∃ x, secant_method f xl xu y m n = Outcome.exactRoot x) ∨
     (∃ x, secant_method f xl xu y m n = Outcome.tolerance x) ∨
     secant_method f xl xu y m n = Outcome.maxIterations ∨
     secant_method f xl xu y m n = Outcome.divFault) := by
  have hb : bisection_method f xl xu y m n ≠ Outcome.divFault := by
    simp only [bisection_method]
    split
    · simp
    · exact (bisect_loop_shapes _ _ n _ _ _).2.1
  have hs : secant_method f xl xu y m n ≠ Outcome.invalidBracket :=
    (secant_loop_shapes _ _ n _ _).1
  refine ⟨hb, hs, ?_, ?_, ?_⟩
  · cases hr : bisection_method f xl xu y m n with
    | exactRoot x => exact Or.inl ⟨x, rfl⟩
    | tolerance x => exact Or.inr (Or.inl ⟨x, rfl⟩)
    | maxIterations => exact Or.inr (Or.inr (Or.inl rfl))
    | invalidBracket => exact Or.inr (Or.inr (Or.inr rfl))
    | divFault => exact absurd hr hb
  · cases hr : false_position_method f xl xu y m n with
    | exactRoot x => exact Or.inl ⟨x, rfl⟩
    | tolerance x => exact Or.inr (Or.inl ⟨x, rfl⟩)
    | maxIterations => exact Or.inr (Or.inr (Or.inl rfl))
    | invalidBracket => exact Or.inr (Or.inr (Or.inr (Or.inl rfl)))
    | divFault => exact Or.inr (Or.inr (Or.inr (Or.inr rfl)))
  · cases hr : secant_method f xl xu y m n with
    | exactRoot x => exact Or.inl ⟨x, rfl⟩
    | tolerance x => exact Or.inr (Or.inl ⟨x, rfl⟩)
    | maxIterations => exact Or.inr (Or.inr (Or.inl rfl))
    | invalidBracket => exact absurd hr hs
    | divFault => exact Or.inr (Or.inr (Or.inr rfl))

/-- Counterexample to claim C7 as stated: with this objective and bracket
`[0, 2]`, the one-time check passes (`solve 0 * solve 2 = 0`), yet
`solve x_a` and `solve x_b` are not of opposite sign at entry
(`solve 0 = 0`), and the first bisection update moves the bracket to
`(1, 2)`, on which `solve 1 * solve 2 = 1 > 0` — the invariant is lost. -/
theorem bracket_invariant_cex :
    zeroEdgeObjective 0 - 0 = 0 ∧
    ¬ ((zeroEdgeObjective 0 - 0) * (zeroEdgeObjective 2 - 0) > 0) ∧
    bisect_step (fun x => zeroEdgeObjective x - 0) (1 / 100000) 0 2 0 =
      Sum.inr ((1, 2), 1) ∧
    (zeroEdgeObjective 1 - 0) * (zeroEdgeObjective 2 - 0) > 0 := by
  refine ⟨by norm_num [zeroEdgeObjective], by norm_num [zeroEdgeObjective], ?_,
    by norm_num [zeroEdgeObjective]⟩
  norm_num [bisect_step, zeroEdgeObjective, approx_relative_error, ErrVal.below,
    decide_eq_decide]

/-- Claim C7 (amended): when the bracket endpoint values have strictly
opposite signs — `solve x_a * solve x_b < 0`, which the one-time entry
check accepts but, because that check only rejects a strictly positive
product, is not guaranteed by it when an endpoint value is zero — every
bracket update of the bisection and false-position loops preserves strictly
opposite signs. -/
theorem bracket_invariant_preserved (solve_func : ℚ → ℚ) (m a b p a' b' p' : ℚ)
    (hab : solve_func a * solve_func b < 0) :
    ¬ (solve_func a * solve_func b > 0) ∧
    (bisect_step solve_func m a b p = Sum.inr ((a', b'), p') →
      solve_func a' * solve_func b' < 0) ∧
    (falsepos_step solve_func m a b p = Sum.inr ((a', b'), p') →
      solve_func a' * solve_func b' < 0) :=
  ⟨by linarith, bisect_step_preserves_sign solve_func m a b p a' b' p' hab,
   falsepos_step_preserves_sign solve_func m a b p a' b' p' hab⟩

/-- Witness for the amended claim C7: the objective `x - 3` on the bracket
`[0, 4]` has strictly opposite endpoint signs, and after the first bisection
update (to the bracket `(2, 4)`) the signs are still strictly opposite. -/
theorem bracket_invariant_preserved_witness :
    ((fun x : ℚ => x - 3) 0 * (fun x : ℚ => x - 3) 4 < 0) ∧
    ((fun x : ℚ => x - 3) 2 * (fun x : ℚ => x - 3) 4 < 0) := by
  have h := bracket_invariant_preserved (fun x : ℚ => x - 3) (1 / 100000) 0 4 0 2 4 2
    (by norm_num)
  refine ⟨by norm_num, h.2.1 ?_⟩
  norm_num [bisect_step, approx_relative_error, ErrVal.below, decide_eq_decide]

/-- Counterexample to claim C8 as stated: a constant-zero objective has
`f x_0 = f x_1`, yet `secant_method` returns through the exact-root
short-circuit before ever reaching the division — no division fault. -/
theorem secant_equal_values_cex :
    (fun _ : ℚ => (0 : ℚ)) 1 = (fun _ : ℚ => (0 : ℚ)) 1 ∧
    secant_method (fun _ => (0 : ℚ)) 1 1 0 (1 / 100000) 100 = Outcome.exactRoot 1 ∧
    Outcome.exactRoot (1 : ℚ) ≠ Outcome.divFault := by
  refine ⟨rfl, ?_, by simp⟩
  show secant_loop _ _ (99 + 1) _ _ = _
  rw [secant_loop]
  norm_num [secant_step]

/-- Claim C8 (amended): whenever `f x_0 = f x_1` and the first iteration
reaches the update — the exact-root check fails (`f x_0 ≠ y`) and the
relative-error check fails — `secant_method` hits the zero-denominator
division fault instead of returning a value. -/
theorem secant_equal_values_divfault (f : ℚ → ℚ) (x_0 x_1 y m : ℚ) (n : ℕ)
    (hn : 0 < n) (heq : f x_0 = f x_1) (h0 : f x_0 - y ≠ 0)
    (herr : (approx_relative_error x_0 x_1).below m = false) :
    secant_method f x_0 x_1 y m n = Outcome.divFault := by
  obtain ⟨k, rfl⟩ : ∃ k, n = k + 1 := ⟨n - 1, (Nat.succ_pred_eq_of_pos hn).symm⟩
  show secant_loop _ _ (k + 1) _ _ = _
  rw [secant_loop]
  have hd : (f x_0 - y) - (f x_1 - y) = 0 := by rw [heq]; ring
  have hs : secant_step (fun x => f x - y) m x_0 x_1 = Sum.inl Outcome.divFault := by
    simp [secant_step, h0, herr, hd]
  rw [hs]

/-- Witness for the amended claim C8: the constant objective `1` with
guesses `0` and `1` reaches the update on the first iteration and faults. -/
theorem secant_equal_values_divfault_witness :
    0 < 100 ∧ secant_method (fun _ => (1 : ℚ)) 0 1 0 (1 / 100000) 100 = Outcome.divFault := by
  refine ⟨by norm_num, secant_equal_values_divfault (fun _ => (1 : ℚ)) 0 1 0 (1 / 100000) 100
    (by norm_num) rfl (by norm_num) ?_⟩
  norm_num [approx_relative_error, ErrVal.below]

/-- Claim C9: with two identical nonzero guesses `x` whose objective value
misses `y`, the secant solver returns `x` on the first iteration through the
tolerance path — the relative error between the equal guesses is `0`, below
any positive tolerance — even though `f x ≠ y`. -/
theorem secant_identical_guesses (f : ℚ → ℚ) (x y m : ℚ) (n : ℕ)
    (hx : x ≠ 0) (hfy : f x ≠ y) (hm : 0 < m) (hn : 0 < n) :
    secant_method f x x y m n = Outcome.tolerance x := by
  obtain ⟨k, rfl⟩ : ∃ k, n = k + 1 := ⟨n - 1, (Nat.succ_pred_eq_of_pos hn).symm⟩
  show secant_loop _ _ (k + 1) _ _ = _
  rw [secant_loop]
  have h0 : f x - y ≠ 0 := sub_ne_zero.mpr hfy
  have herr : (approx_relative_error x x).below m = true := by
    rw [approx_relative_error_self x hx]
    simpa [ErrVal.below] using hm
  have hs : secant_step (fun t => f t - y) m x x = Sum.inl (Outcome.tolerance x) := by
    simp [secant_step, h0, herr]
  rw [hs]

/-- Witness for claim C9: the identity objective with both guesses `2`,
target `0`, returns `2` through the tolerance path on the first iteration. -/
theorem secant_identical_guesses_witness :
    (2 : ℚ) ≠ 0 ∧ secant_method (fun t => t) 2 2 0 (1 / 100000) 100 = Outcome.tolerance 2 :=
  ⟨by norm_num, secant_identical_guesses (fun t => t) 2 0 (1 / 100000) 100 (by norm_num)
    (by norm_num) (by norm_num) (by norm_num)⟩
